import Mathlib

/-!
# Verification of the DS model store (`ds-model-store.ts`)

Shallow embedding of `ds-model-store.ts` (under `src/packages/store/addon`)
(the `Store` class extending `CoreStore`, plus the two DEBUG-mode lifecycle
guard functions defined at the bottom of that file).

Modelling conventions:
* JavaScript object identity is modelled by a `Ref := Nat` tag; the store
  state carries a `nextRef` allocation counter and every expression that in
  the source creates a fresh object (`Object.create(null)`, `new
  ShimModelClass(...)`, `owner.factoryFor(...)`, `factory.create(...)`)
  consumes a fresh `Ref`.
* JavaScript objects used as string-keyed dictionaries are association
  lists `List (String × α)`; `undefined` is `Option.none`.
* Store-owned mutable state (the three caches, the lazily created schema
  service, the allocation counter, the subscription list) lives in
  `StoreState` and is threaded explicitly.  Ambient data that the store
  does not own — the name normalizer, the owner's factory registry, the
  class-level static metadata that external code may mutate, the injected
  schema provider, the `CUSTOM_MODEL_CLASS` build flag — lives in `Env`;
  calls made at different times may see different `Env` values, which is
  how external mutation between calls is expressed.
* Thrown exceptions are `Except StoreError`; `assert`/`deprecate` are
  modelled in the DEBUG build (where they exist in the source).
-/

set_option autoImplicit false

deriving instance DecidableEq for Except

namespace DSModelStore

/-- Identity tag standing for a JavaScript object reference. -/
abbrev Ref := Nat

/-- Attribute metadata as held in a model class's `attributes` map
(name plus a transform/type tag; the exact payload is opaque to the store). -/
structure AttrMeta where
  name : String
  kind : String
  deriving DecidableEq, Repr

/-- Relationship metadata as held in `relationshipsObject` /
`relationshipsByName` (kind `belongsTo`/`hasMany` plus the related type). -/
structure RelMeta where
  kind : String
  type : String
  deriving DecidableEq, Repr

/-- A model class as seen by the store: its object identity, the canonical
name keying its class-level static metadata in the environment, and its
`isModel` marker. -/
structure KlassVal where
  ref : Ref
  name : String
  isModel : Bool
  deriving DecidableEq, Repr

/-- A factory handle as returned by the owner's `factoryFor`:
its own object identity, an optional `.class` property (the
factory/class split in `modelFor`), and the view of the factory itself
as a class for the legacy case where `.class` is absent. -/
structure FactoryVal where
  ref : Ref
  klassProp : Option KlassVal
  asKlass : KlassVal
  deriving DecidableEq, Repr

/-- The factory/class split `maybeFactory.class ? maybeFactory.class : maybeFactory`
(`ds-model-store.ts`, line 175). -/
def klassOfFactory (f : FactoryVal) : KlassVal :=
  match f.klassProp with
  | some k => k
  | none => f.asKlass

/-- What the owner's registry knows about one canonical model name:
the stable class object (identity + metadata key + `isModel`) and whether
the produced factory handle exposes a `.class` property. -/
structure RegEntry where
  klassRef : Ref
  klassName : String
  isModel : Bool
  exposesClassProp : Bool
  deriving DecidableEq, Repr

/-- The attributes-definition object built by the legacy branch of
`_attributesDefinitionFor`: a fresh `Object.create(null)` (identity `ref`)
holding the copied attribute entries. -/
structure AttrDefs where
  ref : Ref
  entries : List (String × AttrMeta)
  deriving DecidableEq, Repr

/-- A JavaScript value that is either `null` or a relationships-definition
object (identity plus entries); `undefined` is represented by wrapping in
`Option` at the use sites. -/
inductive JsRelVal where
  | nullRel : JsRelVal
  | defs (ref : Ref) (entries : List (String × RelMeta)) : JsRelVal
  deriving DecidableEq, Repr

/-- The lazily created schema definition service instance
(`store._schemaDefinitionService`); only its identity matters here, its
behaviour delegates to the environment's schema provider. -/
structure SchemaService where
  ref : Ref
  deriving DecidableEq, Repr

/-- A stable record identifier: `{ type, id }`. -/
structure StableRecordIdentifier where
  type : String
  id : Option String
  deriving DecidableEq, Repr

/-- The internal bookkeeping record for an identifier
(`_internalModelForResource`): its identity and its opaque
`currentState` value. -/
structure InternalModel where
  ref : Ref
  currentState : Nat
  deriving DecidableEq, Repr

/-- A value stored in the `createOptions` dictionary assembled by
`instantiateRecord`. -/
inductive OptVal where
  | storeV (ref : Ref)
  | internalModelV (ref : Ref)
  | stateV (s : Nat)
  | nullV
  | userV (v : Nat)
  deriving DecidableEq, Repr

/-- The `createOptions` object: its string-keyed own properties plus the
owner slot set by `setOwner` (a well-known symbol in Ember, disjoint from
all string keys). -/
structure CreateOptions where
  props : List (String × OptVal)
  owner : Option Ref
  deriving DecidableEq, Repr

/-- The live record object produced by `factory.create(createOptions)`:
a fresh identity remembering the options it was constructed with. -/
structure DSModelVal where
  ref : Ref
  createOptions : CreateOptions
  deriving DecidableEq, Repr

/-- Exceptions thrown by the store, by mechanism used in the source:
`assert(...)` failures, `new EmberError(...)`, a bare `throw "<string>"`,
and a JavaScript `TypeError` (indexing into `null`). -/
inductive StoreError where
  | assertFailed (msg : String)
  | emberError (msg : String)
  | thrownString (msg : String)
  | typeError (msg : String)
  deriving DecidableEq, Repr

/-! ## JavaScript object primitives on association lists -/

/-- Property read `o[k]`: first binding for `k`, `none` for `undefined`. -/
def aget {α : Type} (o : List (String × α)) (k : String) : Option α :=
  (o.find? (fun p => p.1 = k)).map (fun p => p.2)

/-- Property write `o[k] = v`: overwrite in place if the key exists,
append otherwise (JavaScript own-property assignment). -/
def aset {α : Type} : List (String × α) → String → α → List (String × α)
  | [], k, v => [(k, v)]
  | p :: ps, k, v => if p.1 = k then (k, v) :: ps else p :: aset ps k v

/-- Property removal `delete o[k]`. -/
def adel {α : Type} (o : List (String × α)) (k : String) :
    List (String × α) :=
  o.filter (fun p => ¬ p.1 = k)

/-- Models `Object.assign(base, extra)` (from `@ember/polyfills`): copy each own
property of `extra` onto `base` in order, overwriting existing keys. -/
def jsAssign {α : Type} (base extra : List (String × α)) :
    List (String × α) :=
  extra.foldl (fun acc kv => aset acc kv.1 kv.2) base

/-! ## Environment and store state -/

/-- Ambient data the store reads but does not own.  Distinct calls may
observe different environments, which models external mutation (e.g. of
class-level metadata) happening between the calls. -/
structure Env where
  /-- The `normalizeModelName` function, consumed as pure. -/
  normalize : String → String
  /-- The owner's model registry: canonical name to registered class. -/
  registry : String → Option RegEntry
  /-- The `CUSTOM_MODEL_CLASS` canary feature flag. -/
  customModelClass : Bool
  /-- Class-level `attributes` map, keyed by class name (mutable ambient
  state: `get(modelClass, 'attributes')`). -/
  classAttrs : String → List (String × AttrMeta)
  /-- Class-level `relationshipsObject` (may be absent), with a stable
  object identity when present: `get(modelClass, 'relationshipsObject')`. -/
  classRelsObject : String → Option (Ref × List (String × RelMeta))
  /-- Class-level `relationshipsByName` map:
  `get(modelClass, 'relationshipsByName')`. -/
  classRelsByName : String → List (String × RelMeta)
  /-- The injected schema provider's `attributesDefinitionFor`
  (pluggable strategy). -/
  providerAttrs : String → AttrDefs
  /-- The injected schema provider's `relationshipsDefinitionFor`
  (pluggable strategy): identity of and entries in the per-type map. -/
  providerRels : String → Ref × List (String × RelMeta)
  /-- The `CoreStore._internalModelForResource` lookup, consumed externally. -/
  internalModelOf : StableRecordIdentifier → InternalModel

/-- The store-owned mutable state threaded through every operation. -/
structure StoreState where
  /-- Allocation counter backing fresh object identities. -/
  nextRef : Ref
  /-- Identity of the store object itself (the `store: this` option). -/
  storeRef : Ref
  /-- The `getOwner(this)` value for this store. -/
  owner : Ref
  /-- Ember lifecycle flag `isDestroying`. -/
  isDestroying : Bool
  /-- Ember lifecycle flag `isDestroyed`. -/
  isDestroyed : Bool
  /-- The strict-guard flag `shouldAssertMethodCallsOnDestroyedStore`
  (absent/unset is `false`: warn, do not fail). -/
  shouldAssertMethodCallsOnDestroyedStore : Bool
  /-- The `_modelFactoryCache`, keyed by normalized model name. -/
  modelFactoryCache : List (String × FactoryVal)
  /-- The `_attributesDefCache`, keyed by the raw model name argument. -/
  attributesDefCache : List (String × AttrDefs)
  /-- The `_relationshipsDefCache`, keyed by the raw model name argument. -/
  relationshipsDefCache : List (String × JsRelVal)
  /-- The `_schemaDefinitionService`, created lazily. -/
  schemaService : Option SchemaService
  /-- Subscriptions registered with the notification manager:
  (identifier, record identity) pairs, in registration order. -/
  subscriptions : List (StableRecordIdentifier × Ref)
  deriving DecidableEq, Repr

/-! ## Lifecycle guards (DEBUG build, lines 295–333) -/

/-- Outcome of one guard invocation: whether it emitted a deprecation
warning, whether it threw an assertion error, and the message used for
either (which names the guarded operation). -/
structure GuardResult where
  warns : Bool
  throws : Bool
  msg : String
  deriving DecidableEq, Repr

/-- The guard message, naming the guarded operation. -/
def guardMsg (method : String) : String :=
  "Attempted to call store." ++ method ++
    "(), but the store instance has already been destroyed."

/-- Models `assertDestroyingStore(store, method)`: trips when
`store.isDestroying || store.isDestroyed`; deprecation warning when the
strict flag is unset, assertion failure when it is set. -/
def assertDestroyingStore (st : StoreState) (method : String) : GuardResult :=
  let violated := st.isDestroying || st.isDestroyed
  if !st.shouldAssertMethodCallsOnDestroyedStore then
    { warns := violated, throws := false, msg := guardMsg method }
  else
    { warns := false, throws := violated, msg := guardMsg method }

/-- Models `assertDestroyedStoreOnly(store, method)`: trips only when
`store.isDestroyed`; same warn/fail split on the strict flag. -/
def assertDestroyedStoreOnly (st : StoreState) (method : String) : GuardResult :=
  let violated := st.isDestroyed
  if !st.shouldAssertMethodCallsOnDestroyedStore then
    { warns := violated, throws := false, msg := guardMsg method }
  else
    { warns := false, throws := violated, msg := guardMsg method }

/-! ## Factory resolution (lines 183–200) -/

/-- Models `owner.factoryFor('model:' + name)`: on a registered name, produce a
fresh factory-manager handle (fresh identity) wrapping the stable class;
when the registry exposes no `.class` property the factory itself plays
the class role. -/
def ownerFactoryFor (env : Env) (st : StoreState) (n : String) :
    Option (FactoryVal × StoreState) :=
  match env.registry n with
  | none => none
  | some e =>
    let f : FactoryVal :=
      { ref := st.nextRef
        klassProp :=
          if e.exposesClassProp then
            some { ref := e.klassRef, name := e.klassName, isModel := e.isModel }
          else none
        asKlass := { ref := st.nextRef, name := e.klassName, isModel := e.isModel } }
    some (f, { st with nextRef := st.nextRef + 1 })

/-- Modelled from the spec: `getModelFactory` is imported from
`schema-definition-service.ts`, which is not under `src/`.  Per §4.1 of
the spec: look up the store-scoped cache by the normalized name; on a hit
return the previously cached handle with no re-lookup; on a miss ask the
environment for a constructible factory, returning `none` (no caching of
any placeholder) when none exists, and caching the handle on success. -/
def getModelFactory (env : Env) (st : StoreState) (n : String) :
    Option FactoryVal × StoreState :=
  match aget st.modelFactoryCache n with
  | some factory => (some factory, st)
  | none =>
    match ownerFactoryFor env st n with
    | none => (none, st)
    | some (factory, st1) =>
      (some factory,
        { st1 with modelFactoryCache := aset st1.modelFactoryCache n factory })

/-- Embeds `_modelFactoryFor(modelName)` (lines 183–200): DEBUG guard, input
validation (`isPresent`; the `typeof === 'string'` assert is trivially
true in the embedding since the argument is a `String`), normalization,
cached factory lookup, and the `EmberError` on a missing model. -/
def modelFactoryFor (env : Env) (st : StoreState) (modelName : String) :
    Except StoreError FactoryVal × StoreState :=
  let g := assertDestroyedStoreOnly st "_modelFactoryFor"
  if g.throws then (.error (.assertFailed g.msg), st)
  else if modelName.isEmpty then
    (.error (.assertFailed
      "You need to pass a model name to the store's _modelFactoryFor method"), st)
  else
    let normalizedModelName := env.normalize modelName
    match getModelFactory env st normalizedModelName with
    | (none, st1) =>
      (.error (.emberError
        ("No model was found for '" ++ normalizedModelName ++ "'")), st1)
    | (some factory, st1) => (.ok factory, st1)

/-! ## `modelFor` (lines 162–181) -/

/-- The value returned by `modelFor`: either the model class itself, or a
`new ShimModelClass(this, modelName)`.  The shim (`shim-model-class.ts`,
not under `src/`) is, per §4.1 of the spec, a minimal synthetic stand-in
constructed fresh on every call; only its identity and stored model name
matter to the store code embedded here. -/
inductive ModelForResult where
  | klass (k : KlassVal)
  | shim (ref : Ref) (modelName : String)
  deriving DecidableEq, Repr

/-- Embeds `modelFor(modelName)` (lines 162–181): DEBUG guard, input validation,
factory resolution, the factory/class split, and the `isModel` branch
returning either the class directly or a fresh shim. -/
def modelFor (env : Env) (st : StoreState) (modelName : String) :
    Except StoreError ModelForResult × StoreState :=
  let g := assertDestroyedStoreOnly st "modelFor"
  if g.throws then (.error (.assertFailed g.msg), st)
  else if modelName.isEmpty then
    (.error (.assertFailed
      "You need to pass a model name to the store's modelFor method"), st)
  else
    match modelFactoryFor env st modelName with
    | (.error e, st1) => (.error e, st1)
    | (.ok maybeFactory, st1) =>
      let klass := klassOfFactory maybeFactory
      if !klass.isModel then
        (.ok (.shim st1.nextRef modelName), { st1 with nextRef := st1.nextRef + 1 })
      else
        (.ok (.klass klass), st1)

/-! ## Class-level introspection surfaces

`get(modelClass, 'attributes')`, `get(modelClass, 'relationshipsObject')`
and `get(modelClass, 'relationshipsByName')` read class-level static
metadata, which is ambient state in `Env`.  For a shim result these
surfaces belong to `shim-model-class.ts` (not under `src/`); the spec
does not pin them down beyond "a uniform introspection surface", and no
claim exercises them, so they are modelled as empty. -/

/-- Reads `get(modelClass, 'attributes')` on a `modelFor` result. -/
def classAttributesOf (env : Env) : ModelForResult → List (String × AttrMeta)
  | .klass k => env.classAttrs k.name
  | .shim _ _ => []

/-- Reads `get(modelClass, 'relationshipsObject')` on a `modelFor` result. -/
def classRelationshipsObjectOf (env : Env) :
    ModelForResult → Option (Ref × List (String × RelMeta))
  | .klass k => env.classRelsObject k.name
  | .shim _ _ => none

/-- Reads `get(modelClass, 'relationshipsByName')` on a `modelFor` result. -/
def classRelationshipsByNameOf (env : Env) :
    ModelForResult → List (String × RelMeta)
  | .klass k => env.classRelsByName k.name
  | .shim _ _ => []

/-! ## Schema definition service (lines 283–292) -/

/-- Embeds `getSchemaDefinitionService()` (lines 283–292): when
`CUSTOM_MODEL_CLASS` is on, lazily construct and memoize the service;
otherwise `throw 'schema service is only available when custom model
class feature flag is on'`. -/
def getSchemaDefinitionService (env : Env) (st : StoreState) :
    Except StoreError (SchemaService × StoreState) :=
  if env.customModelClass then
    match st.schemaService with
    | some s => .ok (s, st)
    | none =>
      let s : SchemaService := { ref := st.nextRef }
      .ok (s, { st with nextRef := st.nextRef + 1, schemaService := some s })
  else
    .error (.thrownString
      "schema service is only available when custom model class feature flag is on")

/-- Modelled from the spec: the service's `attributesDefinitionFor`
(`DSModelSchemaDefinitionService`, in `schema-definition-service.ts`, not
under `src/`) — per §4.2 the pluggable strategy delegates every call
directly to the injected schema provider, with no caching of its own. -/
def serviceAttributesDefinitionFor (env : Env) (modelName : String) : AttrDefs :=
  env.providerAttrs modelName

/-- Modelled from the spec: the service's `relationshipsDefinitionFor`
(same provenance as `serviceAttributesDefinitionFor`): delegates directly
to the injected schema provider's per-type relationship map. -/
def serviceRelationshipsDefinitionFor (env : Env) (modelName : String) : JsRelVal :=
  JsRelVal.defs (env.providerRels modelName).1 (env.providerRels modelName).2

/-! ## Metadata definitions (lines 248–281) -/

/-- Embeds `_attributesDefinitionFor(modelName)` (lines 248–265): pluggable
branch delegates through the schema service; legacy branch memoizes in
`_attributesDefCache` (keyed by the raw `modelName`), computing on a miss
by introspecting `modelFor(modelName)` and copying the class attribute
map into a fresh `Object.create(null)`. -/
def attributesDefinitionFor (env : Env) (st : StoreState) (modelName : String) :
    Except StoreError AttrDefs × StoreState :=
  if env.customModelClass then
    match getSchemaDefinitionService env st with
    | .error e => (.error e, st)
    | .ok (_s, st1) => (.ok (serviceAttributesDefinitionFor env modelName), st1)
  else
    match aget st.attributesDefCache modelName with
    | some attributes => (.ok attributes, st)
    | none =>
      match modelFor env st modelName with
      | (.error e, st1) => (.error e, st1)
      | (.ok modelClass, st1) =>
        let attributeMap := classAttributesOf env modelClass
        let attributes : AttrDefs := { ref := st1.nextRef, entries := attributeMap }
        (.ok attributes,
          { st1 with
              nextRef := st1.nextRef + 1
              attributesDefCache := aset st1.attributesDefCache modelName attributes })

/-- Embeds `_relationshipsDefinitionFor(modelName)` (lines 267–281): pluggable
branch delegates through the schema service; legacy branch memoizes in
`_relationshipsDefCache` (keyed by the raw `modelName`), computing on a
miss as `get(modelClass, 'relationshipsObject') || null` — the explicit
`null` (not `undefined`) is what gets cached for relationship-free types. -/
def relationshipsDefinitionFor (env : Env) (st : StoreState) (modelName : String) :
    Except StoreError JsRelVal × StoreState :=
  if env.customModelClass then
    match getSchemaDefinitionService env st with
    | .error e => (.error e, st)
    | .ok (_s, st1) => (.ok (serviceRelationshipsDefinitionFor env modelName), st1)
  else
    match aget st.relationshipsDefCache modelName with
    | some relationships => (.ok relationships, st)
    | none =>
      match modelFor env st modelName with
      | (.error e, st1) => (.error e, st1)
      | (.ok modelClass, st1) =>
        let relationships : JsRelVal :=
          match classRelationshipsObjectOf env modelClass with
          | some (r, entries) => .defs r entries
          | none => .nullRel
        (.ok relationships,
          { st1 with
              relationshipsDefCache :=
                aset st1.relationshipsDefCache modelName relationships })

/-- Embeds `_relationshipMetaFor(modelName, id, key)` (lines 238–246): in
pluggable mode, index the full `_relationshipsDefinitionFor(modelName)`
map at `key` (indexing `null` is a JavaScript `TypeError`); in legacy
mode, answer from live class introspection via
`get(modelFor(modelName), 'relationshipsByName').get(key)`.  The `id`
argument is accepted but unused, as in the source. -/
def relationshipMetaFor (env : Env) (st : StoreState) (modelName : String)
    (id : Option String) (key : String) :
    Except StoreError (Option RelMeta) × StoreState :=
  if env.customModelClass then
    match relationshipsDefinitionFor env st modelName with
    | (.error e, st1) => (.error e, st1)
    | (.ok .nullRel, st1) =>
      (.error (.typeError "Cannot read properties of null"), st1)
    | (.ok (.defs _ entries), st1) => (.ok (aget entries key), st1)
  else
    match modelFor env st modelName with
    | (.error e, st1) => (.error e, st1)
    | (.ok modelClass, st1) =>
      (.ok (aget (classRelationshipsByNameOf env modelClass) key), st1)

/-! ## Record instantiation (lines 119–148) -/

/-- The base `createOptions` object literal of `instantiateRecord`
(lines 128–133): `store`, `_internalModel`, `currentState`, and the
`container: null` injection-point slot. -/
def instantiateBaseProps (env : Env) (st : StoreState)
    (identifier : StableRecordIdentifier) : List (String × OptVal) :=
  let internalModel := env.internalModelOf identifier
  [("store", .storeV st.storeRef),
   ("_internalModel", .internalModelV internalModel.ref),
   ("currentState", .stateV internalModel.currentState),
   ("container", .nullV)]

/-- The `createOptions` value passed to `factory.create` in
`instantiateRecord` (lines 128–139): the base literal, then
`assign(createOptions, createRecordArgs)`, then
`setOwner(createOptions, getOwner(this))`, then
`delete createOptions.container`. -/
def instantiateRecordCreateOptions (env : Env) (st : StoreState)
    (identifier : StableRecordIdentifier)
    (createRecordArgs : List (String × OptVal)) : CreateOptions :=
  let createOptions : CreateOptions :=
    { props := instantiateBaseProps env st identifier, owner := none }
  let createOptions :=
    { createOptions with props := jsAssign createOptions.props createRecordArgs }
  let createOptions := { createOptions with owner := some st.owner }
  { createOptions with props := adel createOptions.props "container" }

/-- Embeds `instantiateRecord(identifier, createRecordArgs, recordDataFor,
notificationManager)` (lines 119–144): assemble `createOptions`, create
the record from the resolved factory (fresh identity remembering its
options), and register exactly one notification subscription for the
identifier referencing that record. -/
def instantiateRecord (env : Env) (st : StoreState)
    (identifier : StableRecordIdentifier)
    (createRecordArgs : List (String × OptVal)) :
    Except StoreError DSModelVal × StoreState :=
  let modelName := identifier.type
  let createOptions := instantiateRecordCreateOptions env st identifier createRecordArgs
  match modelFactoryFor env st modelName with
  | (.error e, st1) => (.error e, st1)
  | (.ok _factory, st1) =>
    let record : DSModelVal := { ref := st1.nextRef, createOptions := createOptions }
    (.ok record,
      { st1 with
          nextRef := st1.nextRef + 1
          subscriptions := st1.subscriptions ++ [(identifier, record.ref)] })

/-! ## Association-list lemmas -/

theorem aget_nil {α : Type} (k : String) : aget ([] : List (String × α)) k = none := rfl

theorem aget_cons {α : Type} (p : String × α) (l : List (String × α)) (k : String) :
    aget (p :: l) k = if p.1 = k then some p.2 else aget l k := by
  by_cases h : p.1 = k <;> simp [aget, List.find?, h]

theorem aget_aset_self {α : Type} (o : List (String × α)) (k : String) (v : α) :
    aget (aset o k v) k = some v := by
  induction o with
  | nil => simp [aset, aget_cons]
  | cons p ps ih =>
    by_cases h : p.1 = k
    · simp [aset, h, aget_cons]
    · simp [aset, h, aget_cons, ih]

theorem aget_aset_other {α : Type} (o : List (String × α)) (k k' : String) (v : α)
    (h : k' ≠ k) : aget (aset o k v) k' = aget o k' := by
  induction o with
  | nil => simp [aset, aget_cons, aget_nil, Ne.symm h]
  | cons p ps ih =>
    by_cases hp : p.1 = k
    · simp [aset, hp, aget_cons, Ne.symm h, hp ▸ (Ne.symm h)]
    · simp [aset, hp, aget_cons, ih]

theorem aget_adel_self {α : Type} (o : List (String × α)) (k : String) :
    aget (adel o k) k = none := by
  induction o with
  | nil => rfl
  | cons p ps ih =>
    by_cases h : p.1 = k
    · simp [adel, h] at ih ⊢
      exact ih
    · simp [adel, h] at ih ⊢
      simpa [aget_cons, h] using ih

theorem aget_adel_other {α : Type} (o : List (String × α)) (k k' : String)
    (h : k' ≠ k) : aget (adel o k) k' = aget o k' := by
  induction o with
  | nil => rfl
  | cons p ps ih =>
    by_cases hp : p.1 = k
    · simp [adel, hp, aget_cons, Ne.symm h] at ih ⊢
      exact ih
    · simp [adel, hp, aget_cons] at ih ⊢
      by_cases hq : p.1 = k' <;> simp [hq, ih]

theorem aget_eq_none_of_not_mem {α : Type} (l : List (String × α)) (k : String)
    (h : k ∉ l.map Prod.fst) : aget l k = none := by
  induction l with
  | nil => rfl
  | cons p ps ih =>
    simp only [List.map_cons, List.mem_cons] at h
    push_neg at h
    simp [aget_cons, Ne.symm h.1, ih h.2]

theorem aget_jsAssign {α : Type} (base extra : List (String × α)) (k : String)
    (h : (extra.map Prod.fst).Nodup) :
    aget (jsAssign base extra) k =
      ((aget extra k).elim (aget base k) some) := by
  induction extra generalizing base with
  | nil => simp [jsAssign, aget_nil]
  | cons p ps ih =>
    simp only [List.map_cons, List.nodup_cons] at h
    have step : jsAssign base (p :: ps) = jsAssign (aset base p.1 p.2) ps := rfl
    rw [step, ih _ h.2, aget_cons]
    by_cases hk : p.1 = k
    · subst hk
      rw [aget_eq_none_of_not_mem ps p.1 h.1]
      simp [aget_aset_self]
    · simp [hk, aget_aset_other base p.1 k p.2 (Ne.symm hk)]

/-! ## Guard characterization lemmas -/

theorem assertDestroyedStoreOnly_throws_eq (st : StoreState) (m : String) :
    (assertDestroyedStoreOnly st m).throws
      = (st.shouldAssertMethodCallsOnDestroyedStore && st.isDestroyed) := by
  unfold assertDestroyedStoreOnly
  cases st.shouldAssertMethodCallsOnDestroyedStore <;> simp

theorem assertDestroyingStore_throws_eq (st : StoreState) (m : String) :
    (assertDestroyingStore st m).throws
      = (st.shouldAssertMethodCallsOnDestroyedStore
          && (st.isDestroying || st.isDestroyed)) := by
  unfold assertDestroyingStore
  cases st.shouldAssertMethodCallsOnDestroyedStore <;> simp

/-! ## Factory-resolution lemmas -/

/-- The fresh factory handle `ownerFactoryFor` builds from a registry
entry at allocation counter `n`. -/
def freshFactory (n : Ref) (e : RegEntry) : FactoryVal :=
  { ref := n
    klassProp :=
      if e.exposesClassProp then
        some { ref := e.klassRef, name := e.klassName, isModel := e.isModel }
      else none
    asKlass := { ref := n, name := e.klassName, isModel := e.isModel } }

/-- Inversion of a successful `modelFactoryFor` call: the guard passed,
the name was non-empty, and the result came either from a cache hit
(state untouched) or from a registry lookup that allocated a fresh handle
and cached it under the normalized name. -/
theorem modelFactoryFor_ok_inv {env : Env} {st : StoreState} {t : String}
    {f : FactoryVal} {s1 : StoreState}
    (h : modelFactoryFor env st t = (.ok f, s1)) :
    (st.shouldAssertMethodCallsOnDestroyedStore && st.isDestroyed) = false
    ∧ t.isEmpty = false
    ∧ ((aget st.modelFactoryCache (env.normalize t) = some f ∧ s1 = st)
        ∨ (∃ e : RegEntry,
            env.registry (env.normalize t) = some e
            ∧ aget st.modelFactoryCache (env.normalize t) = none
            ∧ f = freshFactory st.nextRef e
            ∧ s1 = { st with
                nextRef := st.nextRef + 1
                modelFactoryCache :=
                  aset st.modelFactoryCache (env.normalize t) f })) := by
  unfold modelFactoryFor at h
  by_cases hg : (assertDestroyedStoreOnly st "_modelFactoryFor").throws
  · simp [hg] at h
  · simp only [hg, if_false, Bool.false_eq_true] at h
    rw [assertDestroyedStoreOnly_throws_eq] at hg
    by_cases he : t.isEmpty
    · simp [he] at h
    · simp only [he, if_false, Bool.false_eq_true] at h
      unfold getModelFactory at h
      cases hc : aget st.modelFactoryCache (env.normalize t) with
      | some fac =>
        rw [hc] at h
        simp only [Prod.mk.injEq, Except.ok.injEq] at h
        obtain ⟨h1, h2⟩ := h
        subst h1; subst h2
        exact ⟨by simpa using hg, by simpa using he, Or.inl ⟨rfl, rfl⟩⟩
      | none =>
        rw [hc] at h
        unfold ownerFactoryFor at h
        cases hr : env.registry (env.normalize t) with
        | none => rw [hr] at h; simp at h
        | some e =>
          rw [hr] at h
          simp only [Prod.mk.injEq, Except.ok.injEq] at h
          obtain ⟨h1, h2⟩ := h
          subst h1; subst h2
          exact ⟨by simpa using hg, by simpa using he,
            Or.inr ⟨e, rfl, rfl, rfl, rfl⟩⟩

/-- After a successful `modelFactoryFor`, the resolved handle sits in the
factory cache under the normalized name. -/
theorem modelFactoryFor_ok_cached {env : Env} {st : StoreState} {t : String}
    {f : FactoryVal} {s1 : StoreState}
    (h : modelFactoryFor env st t = (.ok f, s1)) :
    aget s1.modelFactoryCache (env.normalize t) = some f := by
  rcases (modelFactoryFor_ok_inv h).2.2 with ⟨hc, rfl⟩ | ⟨e, _, _, _, rfl⟩
  · exact hc
  · exact aget_aset_self ..

/-- Frame of a successful `modelFactoryFor`: everything except the
allocation counter and the factory cache is untouched, and the counter
never decreases. -/
theorem modelFactoryFor_ok_frame {env : Env} {st : StoreState} {t : String}
    {f : FactoryVal} {s1 : StoreState}
    (h : modelFactoryFor env st t = (.ok f, s1)) :
    s1.isDestroying = st.isDestroying
    ∧ s1.isDestroyed = st.isDestroyed
    ∧ s1.shouldAssertMethodCallsOnDestroyedStore
        = st.shouldAssertMethodCallsOnDestroyedStore
    ∧ s1.attributesDefCache = st.attributesDefCache
    ∧ s1.relationshipsDefCache = st.relationshipsDefCache
    ∧ s1.schemaService = st.schemaService
    ∧ s1.storeRef = st.storeRef
    ∧ s1.owner = st.owner
    ∧ s1.subscriptions = st.subscriptions
    ∧ st.nextRef ≤ s1.nextRef := by
  rcases (modelFactoryFor_ok_inv h).2.2 with ⟨_, rfl⟩ | ⟨e, _, _, _, rfl⟩
  · exact ⟨rfl, rfl, rfl, rfl, rfl, rfl, rfl, rfl, rfl, Nat.le_refl _⟩
  · exact ⟨rfl, rfl, rfl, rfl, rfl, rfl, rfl, rfl, rfl, Nat.le_succ _⟩

/-- Evaluation of `modelFactoryFor` on a cache hit: the cached handle is
returned unchanged and the state is untouched (no re-lookup). -/
theorem modelFactoryFor_cacheHit {env : Env} {st : StoreState} {t : String}
    {f : FactoryVal}
    (hg : (st.shouldAssertMethodCallsOnDestroyedStore && st.isDestroyed) = false)
    (hne : t.isEmpty = false)
    (hc : aget st.modelFactoryCache (env.normalize t) = some f) :
    modelFactoryFor env st t = (.ok f, st) := by
  unfold modelFactoryFor getModelFactory
  simp [assertDestroyedStoreOnly_throws_eq, hg, hne, hc]

/-! ## `modelFor` lemmas -/

/-- Evaluation of `modelFor` given the underlying factory resolution:
the class is returned directly when `isModel`, otherwise a fresh shim is
allocated. -/
theorem modelFor_eval {env : Env} {st : StoreState} {t : String}
    {f : FactoryVal} {s1 : StoreState}
    (h : modelFactoryFor env st t = (.ok f, s1)) :
    modelFor env st t =
      (if (klassOfFactory f).isModel = true then
        (.ok (.klass (klassOfFactory f)), s1)
      else
        (.ok (.shim s1.nextRef t), { s1 with nextRef := s1.nextRef + 1 })) := by
  obtain ⟨hg, hne, _⟩ := modelFactoryFor_ok_inv h
  unfold modelFor
  simp only [assertDestroyedStoreOnly_throws_eq, hg, hne, Bool.false_eq_true,
    if_false, h]
  cases hM : (klassOfFactory f).isModel <;> simp [hM]

/-- Frame of a successful `modelFor`: the metadata caches, schema
service, flags and subscriptions are untouched; the allocation counter
never decreases. -/
theorem modelFor_ok_frame {env : Env} {st : StoreState} {t : String}
    {mc : ModelForResult} {s1 : StoreState}
    (h : modelFor env st t = (.ok mc, s1)) :
    s1.isDestroying = st.isDestroying
    ∧ s1.isDestroyed = st.isDestroyed
    ∧ s1.shouldAssertMethodCallsOnDestroyedStore
        = st.shouldAssertMethodCallsOnDestroyedStore
    ∧ s1.attributesDefCache = st.attributesDefCache
    ∧ s1.relationshipsDefCache = st.relationshipsDefCache
    ∧ s1.schemaService = st.schemaService
    ∧ s1.storeRef = st.storeRef
    ∧ s1.owner = st.owner
    ∧ s1.subscriptions = st.subscriptions
    ∧ st.nextRef ≤ s1.nextRef := by
  unfold modelFor at h
  by_cases hg : (assertDestroyedStoreOnly st "modelFor").throws
  · simp [hg] at h
  · simp only [hg, Bool.false_eq_true, if_false] at h
    by_cases hne : t.isEmpty
    · simp [hne] at h
    · simp only [hne, Bool.false_eq_true, if_false] at h
      cases hf : modelFactoryFor env st t with
      | mk res s2 =>
        rw [hf] at h
        cases res with
        | error e => simp at h
        | ok f =>
          have frame := modelFactoryFor_ok_frame hf
          cases hM : (klassOfFactory f).isModel with
          | true =>
            simp only [hM, Bool.not_true, Bool.false_eq_true, if_false,
              Prod.mk.injEq] at h
            obtain ⟨_, h2⟩ := h
            subst h2
            exact frame
          | false =>
            simp only [hM, Bool.not_false, if_true, Prod.mk.injEq] at h
            obtain ⟨_, h2⟩ := h
            subst h2
            refine ⟨frame.1, frame.2.1, frame.2.2.1, frame.2.2.2.1,
              frame.2.2.2.2.1, frame.2.2.2.2.2.1, frame.2.2.2.2.2.2.1,
              frame.2.2.2.2.2.2.2.1, frame.2.2.2.2.2.2.2.2.1, ?_⟩
            exact Nat.le_trans frame.2.2.2.2.2.2.2.2.2 (Nat.le_succ _)

/-! ## Metadata-cache lemmas -/

/-- Evaluation of legacy `_attributesDefinitionFor` on a cache hit: the
stored mapping is returned by reference, with no state change. -/
theorem attributesDefinitionFor_cacheHit {env : Env} {st : StoreState}
    {t : String} {a : AttrDefs}
    (hc : env.customModelClass = false)
    (h : aget st.attributesDefCache t = some a) :
    attributesDefinitionFor env st t = (.ok a, st) := by
  unfold attributesDefinitionFor
  simp [hc, h]

/-- Inversion of a successful legacy `_attributesDefinitionFor`: the
result is cached under the raw name, other raw-name entries and the
other caches are untouched, and the counter never decreases. -/
theorem attributesDefinitionFor_ok_legacy_inv {env : Env} {st : StoreState}
    {t : String} {a : AttrDefs} {s1 : StoreState}
    (hc : env.customModelClass = false)
    (h : attributesDefinitionFor env st t = (.ok a, s1)) :
    aget s1.attributesDefCache t = some a
    ∧ (∀ t2, t2 ≠ t → aget s1.attributesDefCache t2 = aget st.attributesDefCache t2)
    ∧ s1.relationshipsDefCache = st.relationshipsDefCache
    ∧ s1.schemaService = st.schemaService
    ∧ st.nextRef ≤ s1.nextRef := by
  unfold attributesDefinitionFor at h
  simp only [hc, Bool.false_eq_true, if_false] at h
  cases hcache : aget st.attributesDefCache t with
  | some attrs =>
    rw [hcache] at h
    simp only [Prod.mk.injEq, Except.ok.injEq] at h
    obtain ⟨h1, h2⟩ := h
    subst h1; subst h2
    exact ⟨hcache, fun _ _ => rfl, rfl, rfl, Nat.le_refl _⟩
  | none =>
    rw [hcache] at h
    cases hm : modelFor env st t with
    | mk res s2 =>
      rw [hm] at h
      cases res with
      | error e => simp at h
      | ok mc =>
        have frame := modelFor_ok_frame hm
        simp only [Prod.mk.injEq, Except.ok.injEq] at h
        obtain ⟨h1, h2⟩ := h
        subst h1; subst h2
        refine ⟨aget_aset_self .., ?_, frame.2.2.2.2.1, frame.2.2.2.2.2.1, ?_⟩
        · intro t2 ht2
          rw [show ({ s2 with
              nextRef := s2.nextRef + 1
              attributesDefCache :=
                aset s2.attributesDefCache t
                  { ref := s2.nextRef, entries := classAttributesOf env mc } }
                : StoreState).attributesDefCache
              = aset s2.attributesDefCache t
                  { ref := s2.nextRef, entries := classAttributesOf env mc } from rfl]
          rw [aget_aset_other _ _ _ _ ht2, frame.2.2.2.1]
        · exact Nat.le_trans frame.2.2.2.2.2.2.2.2.2 (Nat.le_succ _)

/-- Inversion of a successful legacy `_attributesDefinitionFor` on a
cache miss: the returned mapping is a freshly allocated object (its
identity is at least the incoming counter, and the outgoing counter sits
just past it). -/
theorem attributesDefinitionFor_miss_inv {env : Env} {st : StoreState}
    {t : String} {a : AttrDefs} {s1 : StoreState}
    (hc : env.customModelClass = false)
    (hmiss : aget st.attributesDefCache t = none)
    (h : attributesDefinitionFor env st t = (.ok a, s1)) :
    st.nextRef ≤ a.ref ∧ s1.nextRef = a.ref + 1 := by
  unfold attributesDefinitionFor at h
  simp only [hc, Bool.false_eq_true, if_false, hmiss] at h
  cases hm : modelFor env st t with
  | mk res s2 =>
    rw [hm] at h
    cases res with
    | error e => simp at h
    | ok mc =>
      have frame := modelFor_ok_frame hm
      simp only [Prod.mk.injEq, Except.ok.injEq] at h
      obtain ⟨h1, h2⟩ := h
      subst h1; subst h2
      exact ⟨frame.2.2.2.2.2.2.2.2.2, rfl⟩

/-- Evaluation of legacy `_relationshipsDefinitionFor` on a cache hit:
the stored value (possibly the explicit `null`) is returned with no
state change. -/
theorem relationshipsDefinitionFor_cacheHit {env : Env} {st : StoreState}
    {t : String} {r : JsRelVal}
    (hc : env.customModelClass = false)
    (h : aget st.relationshipsDefCache t = some r) :
    relationshipsDefinitionFor env st t = (.ok r, st) := by
  unfold relationshipsDefinitionFor
  simp [hc, h]

/-- Inversion of a successful legacy `_relationshipsDefinitionFor`: the
result is cached under the raw name, other raw-name entries and the
attributes cache are untouched. -/
theorem relationshipsDefinitionFor_ok_legacy_inv {env : Env} {st : StoreState}
    {t : String} {r : JsRelVal} {s1 : StoreState}
    (hc : env.customModelClass = false)
    (h : relationshipsDefinitionFor env st t = (.ok r, s1)) :
    aget s1.relationshipsDefCache t = some r
    ∧ (∀ t2, t2 ≠ t →
        aget s1.relationshipsDefCache t2 = aget st.relationshipsDefCache t2)
    ∧ s1.attributesDefCache = st.attributesDefCache
    ∧ s1.schemaService = st.schemaService
    ∧ st.nextRef ≤ s1.nextRef := by
  unfold relationshipsDefinitionFor at h
  simp only [hc, Bool.false_eq_true, if_false] at h
  cases hcache : aget st.relationshipsDefCache t with
  | some rels =>
    rw [hcache] at h
    simp only [Prod.mk.injEq, Except.ok.injEq] at h
    obtain ⟨h1, h2⟩ := h
    subst h1; subst h2
    exact ⟨hcache, fun _ _ => rfl, rfl, rfl, Nat.le_refl _⟩
  | none =>
    rw [hcache] at h
    cases hm : modelFor env st t with
    | mk res s2 =>
      rw [hm] at h
      cases res with
      | error e => simp at h
      | ok mc =>
        have frame := modelFor_ok_frame hm
        simp only [Prod.mk.injEq, Except.ok.injEq] at h
        obtain ⟨h1, h2⟩ := h
        subst h1; subst h2
        refine ⟨aget_aset_self .., ?_, frame.2.2.2.1, frame.2.2.2.2.2.1,
          frame.2.2.2.2.2.2.2.2.2⟩
        intro t2 ht2
        rw [show ({ s2 with
            relationshipsDefCache := aset s2.relationshipsDefCache t
              (match classRelationshipsObjectOf env mc with
                | some (rr, entries) => JsRelVal.defs rr entries
                | none => JsRelVal.nullRel) } : StoreState).relationshipsDefCache
            = aset s2.relationshipsDefCache t
              (match classRelationshipsObjectOf env mc with
                | some (rr, entries) => JsRelVal.defs rr entries
                | none => JsRelVal.nullRel) from rfl]
        rw [aget_aset_other _ _ _ _ ht2, frame.2.2.2.2.1]

/-- Evaluation of legacy `_relationshipsDefinitionFor` on a cache miss:
the class-level `relationshipsObject` (or, when absent, the explicit
`null`) is cached under the raw name and returned. -/
theorem relationshipsDefinitionFor_miss_eval {env : Env} {st : StoreState}
    {t : String} {mc : ModelForResult} {s1 : StoreState}
    (hc : env.customModelClass = false)
    (hmiss : aget st.relationshipsDefCache t = none)
    (hm : modelFor env st t = (.ok mc, s1)) :
    relationshipsDefinitionFor env st t =
      (.ok (match classRelationshipsObjectOf env mc with
            | some (r, entries) => JsRelVal.defs r entries
            | none => JsRelVal.nullRel),
        { s1 with
            relationshipsDefCache := aset s1.relationshipsDefCache t
              (match classRelationshipsObjectOf env mc with
                | some (r, entries) => JsRelVal.defs r entries
                | none => JsRelVal.nullRel) }) := by
  unfold relationshipsDefinitionFor
  simp [hc, hmiss, hm]

/-! ## The legacy single-key lookup never touches `_relationshipsDefCache`

The following transport lemmas show that every function on the legacy
`_relationshipMetaFor` path is oblivious to the contents of
`_relationshipsDefCache`: replacing that cache by anything leaves the
computed value unchanged and reappears unchanged in the output state. -/

theorem ownerFactoryFor_relCache (env : Env) (st : StoreState) (n : String)
    (L : List (String × JsRelVal)) :
    ownerFactoryFor env { st with relationshipsDefCache := L } n =
      (ownerFactoryFor env st n).map
        (fun p => (p.1, { p.2 with relationshipsDefCache := L })) := by
  cases h : env.registry n <;> simp [ownerFactoryFor, h]

theorem getModelFactory_relCache (env : Env) (st : StoreState) (n : String)
    (L : List (String × JsRelVal)) :
    getModelFactory env { st with relationshipsDefCache := L } n =
      ((getModelFactory env st n).1,
        { (getModelFactory env st n).2 with relationshipsDefCache := L }) := by
  unfold getModelFactory
  cases hc : aget st.modelFactoryCache n with
  | some f => rfl
  | none =>
    rw [ownerFactoryFor_relCache]
    cases ho : ownerFactoryFor env st n with
    | none => rfl
    | some p => obtain ⟨f, s1⟩ := p; simp

theorem modelFactoryFor_relCache (env : Env) (st : StoreState) (t : String)
    (L : List (String × JsRelVal)) :
    modelFactoryFor env { st with relationshipsDefCache := L } t =
      ((modelFactoryFor env st t).1,
        { (modelFactoryFor env st t).2 with relationshipsDefCache := L }) := by
  unfold modelFactoryFor
  have hg : assertDestroyedStoreOnly { st with relationshipsDefCache := L }
      "_modelFactoryFor" = assertDestroyedStoreOnly st "_modelFactoryFor" := rfl
  simp only [hg]
  by_cases hthrows : (assertDestroyedStoreOnly st "_modelFactoryFor").throws
  · simp [hthrows]
  · simp only [Bool.eq_false_iff.mpr hthrows, Bool.false_eq_true, if_false]
    by_cases hne : t.isEmpty
    · simp [hne]
    · simp only [hne, Bool.false_eq_true, if_false]
      rw [getModelFactory_relCache]
      cases hgf : getModelFactory env st (env.normalize t) with
      | mk res s2 => cases res <;> simp

theorem modelFor_relCache (env : Env) (st : StoreState) (t : String)
    (L : List (String × JsRelVal)) :
    modelFor env { st with relationshipsDefCache := L } t =
      ((modelFor env st t).1,
        { (modelFor env st t).2 with relationshipsDefCache := L }) := by
  unfold modelFor
  have hg : assertDestroyedStoreOnly { st with relationshipsDefCache := L }
      "modelFor" = assertDestroyedStoreOnly st "modelFor" := rfl
  simp only [hg]
  by_cases hthrows : (assertDestroyedStoreOnly st "modelFor").throws
  · simp [hthrows]
  · simp only [Bool.eq_false_iff.mpr hthrows, Bool.false_eq_true, if_false]
    by_cases hne : t.isEmpty
    · simp [hne]
    · simp only [hne, Bool.false_eq_true, if_false]
      rw [modelFactoryFor_relCache]
      cases hmf : modelFactoryFor env st t with
      | mk res s2 =>
        cases res with
        | error e => simp
        | ok f =>
          cases hM : (klassOfFactory f).isModel <;> simp [hM]

/-- The legacy branch of `_relationshipMetaFor` is oblivious to the
contents of `_relationshipsDefCache`. -/
theorem relationshipMetaFor_legacy_relCache (env : Env) (st : StoreState)
    (t : String) (id : Option String) (key : String)
    (L : List (String × JsRelVal))
    (hc : env.customModelClass = false) :
    relationshipMetaFor env { st with relationshipsDefCache := L } t id key =
      ((relationshipMetaFor env st t id key).1,
        { (relationshipMetaFor env st t id key).2 with
            relationshipsDefCache := L }) := by
  unfold relationshipMetaFor
  simp only [hc, Bool.false_eq_true, if_false]
  rw [modelFor_relCache]
  cases hm : modelFor env st t with
  | mk res s2 =>
    cases res with
    | error e => simp
    | ok mc => simp

/-! ## Concrete fixtures used by the witnesses -/

/-- A lowercasing-style normalizer on the names the fixtures use. -/
def wNormalize : String → String :=
  fun s => if s = "Person" then "person" else s

/-- Fixture registry: a first-class model type `person` and a type
`shimful` whose class is not a model (so `modelFor` shims it). -/
def wRegistry : String → Option RegEntry := fun n =>
  if n = "person" then
    some { klassRef := 100, klassName := "person", isModel := true,
           exposesClassProp := true }
  else if n = "shimful" then
    some { klassRef := 101, klassName := "shimful", isModel := false,
           exposesClassProp := true }
  else none

/-- Fixture environment, legacy mode. -/
def wEnv : Env :=
  { normalize := wNormalize
    registry := wRegistry
    customModelClass := false
    classAttrs := fun n =>
      if n = "person" then [("name", { name := "name", kind := "string" })] else []
    classRelsObject := fun _ => none
    classRelsByName := fun n =>
      if n = "person" then
        [("bestFriend", { kind := "belongsTo", type := "person" })]
      else []
    providerAttrs := fun _ => { ref := 300, entries := [] }
    providerRels := fun n =>
      (200, [("bestFriend", { kind := "belongsTo", type := n })])
    internalModelOf := fun _ => { ref := 70, currentState := 3 } }

/-- Fixture environment, pluggable mode. -/
def wEnvP : Env := { wEnv with customModelClass := true }

/-- Fixture environment after external mutation of the class-level
attribute metadata (an `age` attribute appeared on the class). -/
def wEnvMut : Env :=
  { wEnv with
      classAttrs := fun n =>
        if n = "person" then
          [("name", { name := "name", kind := "string" }),
           ("age", { name := "age", kind := "number" })]
        else [] }

/-- Fixture store state: freshly constructed, active, non-strict. -/
def wSt : StoreState :=
  { nextRef := 0, storeRef := 50, owner := 60,
    isDestroying := false, isDestroyed := false,
    shouldAssertMethodCallsOnDestroyedStore := false,
    modelFactoryCache := [], attributesDefCache := [],
    relationshipsDefCache := [], schemaService := none, subscriptions := [] }

/-- The factory handle allocated for `person` from `wSt`. -/
def wFactory : FactoryVal :=
  { ref := 0
    klassProp := some { ref := 100, name := "person", isModel := true }
    asKlass := { ref := 0, name := "person", isModel := true } }

/-- The factory handle allocated for `shimful` from `wSt`. -/
def wShimFactory : FactoryVal :=
  { ref := 0
    klassProp := some { ref := 101, name := "shimful", isModel := false }
    asKlass := { ref := 0, name := "shimful", isModel := false } }

/-- The state `wSt` after resolving the `person` factory. -/
def wSt1 : StoreState :=
  { wSt with nextRef := 1, modelFactoryCache := [("person", wFactory)] }

/-- The state `wSt` after resolving the `shimful` factory. -/
def wStShim : StoreState :=
  { wSt with nextRef := 1, modelFactoryCache := [("shimful", wShimFactory)] }

/-- The attribute-definitions object computed for `person` from `wSt`. -/
def wAttrs : AttrDefs :=
  { ref := 1, entries := [("name", { name := "name", kind := "string" })] }

/-- The state `wSt` after one legacy `_attributesDefinitionFor("person")` call. -/
def wStA : StoreState :=
  { wSt with
    nextRef := 2,
    modelFactoryCache := [("person", wFactory)],
    attributesDefCache := [("person", wAttrs)] }

/-- The state `wSt` after the pluggable path lazily created the schema service. -/
def wStSvc : StoreState :=
  { wSt with nextRef := 1, schemaService := some { ref := 0 } }

/-! ## Claim theorems -/

/-- C1: for every two valid type-name strings that normalize to the same
canonical name, a successful `_modelFactoryFor(t1)` followed by
`_modelFactoryFor(t2)` returns the reference-identical factory handle,
with the second call served from the store-scoped cache without
re-lookup (the store state, allocation counter included, is unchanged). -/
theorem resolveFactory_reference_stable
    (env : Env) (st : StoreState) (t1 t2 : String) (f1 : FactoryVal)
    (s1 : StoreState)
    (hnorm : env.normalize t1 = env.normalize t2)
    (hne : t2.isEmpty = false)
    (h1 : modelFactoryFor env st t1 = (.ok f1, s1)) :
    modelFactoryFor env s1 t2 = (.ok f1, s1) := by
  obtain ⟨hg, _, _⟩ := modelFactoryFor_ok_inv h1
  have hcached := modelFactoryFor_ok_cached h1
  have frame := modelFactoryFor_ok_frame h1
  apply modelFactoryFor_cacheHit
  · rw [frame.2.2.1, frame.2.1]
    exact hg
  · exact hne
  · rw [← hnorm]
    exact hcached

/-- Witness for C1 at the fixture store: resolving `"Person"` then
`"person"`. -/
theorem resolveFactory_reference_stable_witness :
    modelFactoryFor wEnv wSt1 "person" = (.ok wFactory, wSt1) :=
  resolveFactory_reference_stable wEnv wSt "Person" "person" wFactory wSt1
    (by decide) (by decide) (by decide)

/-- C2: in legacy mode, two `_attributesDefinitionFor` calls with the
same name return the reference-identical mapping, the second from the
cache with no recomputation (state unchanged), even when the class-level
attribute metadata was mutated in between (arbitrary second
environment, legacy flag aside). -/
theorem attributesDefinitionFor_memoized
    (env env2 : Env) (st : StoreState) (t : String) (a : AttrDefs)
    (s1 : StoreState)
    (hc : env.customModelClass = false)
    (hc2 : env2.customModelClass = false)
    (h1 : attributesDefinitionFor env st t = (.ok a, s1)) :
    attributesDefinitionFor env2 s1 t = (.ok a, s1) :=
  attributesDefinitionFor_cacheHit hc2
    (attributesDefinitionFor_ok_legacy_inv hc h1).1

/-- Witness for C2 at the fixture store: the second call sees the
mutated class metadata (`wEnvMut`) yet returns the originally computed
mapping unchanged. -/
theorem attributesDefinitionFor_memoized_witness :
    attributesDefinitionFor wEnvMut wStA "person" = (.ok wAttrs, wStA) :=
  attributesDefinitionFor_memoized wEnv wEnvMut wSt "person" wAttrs wStA
    (by decide) (by decide) (by decide)

/-- C3: guard behavior — with the strict flag unset a violation only
emits a deprecation warning and the call proceeds (never throws); with
the strict flag set a violation throws; both messages name the guarded
operation; and the two variants differ only in their violation states:
`assertDestroyingStore` trips on `destroying || destroyed`,
`assertDestroyedStoreOnly` only on `destroyed`. -/
theorem lifecycleGuard_behavior (st : StoreState) (method : String) :
    (assertDestroyingStore st method).throws
        = (st.shouldAssertMethodCallsOnDestroyedStore
            && (st.isDestroying || st.isDestroyed))
    ∧ (assertDestroyingStore st method).warns
        = (!st.shouldAssertMethodCallsOnDestroyedStore
            && (st.isDestroying || st.isDestroyed))
    ∧ (assertDestroyedStoreOnly st method).throws
        = (st.shouldAssertMethodCallsOnDestroyedStore && st.isDestroyed)
    ∧ (assertDestroyedStoreOnly st method).warns
        = (!st.shouldAssertMethodCallsOnDestroyedStore && st.isDestroyed)
    ∧ (assertDestroyingStore st method).msg = guardMsg method
    ∧ (assertDestroyedStoreOnly st method).msg = guardMsg method := by
  unfold assertDestroyingStore assertDestroyedStoreOnly
  cases st.shouldAssertMethodCallsOnDestroyedStore <;> simp

/-- C4: when neither the cache nor the environment has a factory for the
normalized name, `_modelFactoryFor` throws the `EmberError` carrying the
normalized type name, and the store state — the factory cache included —
is returned unchanged (no placeholder cached). -/
theorem resolveFactory_notFound
    (env : Env) (st : StoreState) (t : String)
    (hg : (st.shouldAssertMethodCallsOnDestroyedStore && st.isDestroyed) = false)
    (hne : t.isEmpty = false)
    (hcache : aget st.modelFactoryCache (env.normalize t) = none)
    (hreg : env.registry (env.normalize t) = none) :
    modelFactoryFor env st t =
      (.error (.emberError
        ("No model was found for '" ++ env.normalize t ++ "'")), st) := by
  unfold modelFactoryFor getModelFactory ownerFactoryFor
  simp [assertDestroyedStoreOnly_throws_eq, hg, hne, hcache, hreg]

/-- Witness for C4: the unregistered type `"ghost"`. -/
theorem resolveFactory_notFound_witness :
    modelFactoryFor wEnv wSt "ghost" =
      (.error (.emberError "No model was found for 'ghost'"), wSt) :=
  resolveFactory_notFound wEnv wSt "ghost"
    (by decide) (by decide) (by decide) (by decide)

/-- C5: the `createOptions` assembled by `instantiateRecord` contain the
store back-reference, internal model, its current state and a
`container: null` slot as base entries; caller-supplied keys take
precedence over the base on conflict; the store's owner is propagated
onto the object; and the temporary `container` slot is removed before
construction. -/
theorem instantiateRecord_createOptions_assembly
    (env : Env) (st : StoreState) (identifier : StableRecordIdentifier)
    (args : List (String × OptVal)) (k : String)
    (hnodup : (args.map Prod.fst).Nodup)
    (hk : k ≠ "container") :
    aget (instantiateBaseProps env st identifier) "store"
        = some (.storeV st.storeRef)
    ∧ aget (instantiateBaseProps env st identifier) "_internalModel"
        = some (.internalModelV (env.internalModelOf identifier).ref)
    ∧ aget (instantiateBaseProps env st identifier) "currentState"
        = some (.stateV (env.internalModelOf identifier).currentState)
    ∧ aget (instantiateBaseProps env st identifier) "container" = some .nullV
    ∧ (instantiateRecordCreateOptions env st identifier args).owner
        = some st.owner
    ∧ aget (instantiateRecordCreateOptions env st identifier args).props
        "container" = none
    ∧ aget (instantiateRecordCreateOptions env st identifier args).props k
        = ((aget args k).elim
            (aget (instantiateBaseProps env st identifier) k) some) := by
  refine ⟨rfl, rfl, rfl, rfl, rfl, ?_, ?_⟩
  · exact aget_adel_self ..
  · unfold instantiateRecordCreateOptions
    rw [aget_adel_other _ _ _ hk]
    exact aget_jsAssign _ _ _ hnodup

/-- Witness for C5: caller-supplied `currentState` wins over the base
entry, and the probe key is not `container`. -/
theorem instantiateRecord_createOptions_assembly_witness :
    aget (instantiateBaseProps wEnv wSt { type := "person", id := some "1" })
        "store" = some (.storeV wSt.storeRef)
    ∧ aget (instantiateBaseProps wEnv wSt { type := "person", id := some "1" })
        "_internalModel" = some (.internalModelV
          (wEnv.internalModelOf { type := "person", id := some "1" }).ref)
    ∧ aget (instantiateBaseProps wEnv wSt { type := "person", id := some "1" })
        "currentState" = some (.stateV
          (wEnv.internalModelOf { type := "person", id := some "1" }).currentState)
    ∧ aget (instantiateBaseProps wEnv wSt { type := "person", id := some "1" })
        "container" = some .nullV
    ∧ (instantiateRecordCreateOptions wEnv wSt
        { type := "person", id := some "1" }
        [("currentState", .userV 9), ("foo", .userV 7)]).owner = some wSt.owner
    ∧ aget (instantiateRecordCreateOptions wEnv wSt
        { type := "person", id := some "1" }
        [("currentState", .userV 9), ("foo", .userV 7)]).props "container" = none
    ∧ aget (instantiateRecordCreateOptions wEnv wSt
        { type := "person", id := some "1" }
        [("currentState", .userV 9), ("foo", .userV 7)]).props "currentState"
        = ((aget [("currentState", OptVal.userV 9), ("foo", OptVal.userV 7)]
              "currentState").elim
            (aget (instantiateBaseProps wEnv wSt
              { type := "person", id := some "1" }) "currentState") some) :=
  instantiateRecord_createOptions_assembly wEnv wSt
    { type := "person", id := some "1" }
    [("currentState", .userV 9), ("foo", .userV 7)] "currentState"
    (by decide) (by decide)

/-- C6: in legacy mode, for a type whose class declares no
relationships, the first `_relationshipsDefinitionFor` call returns the
explicit `null` (never `undefined`), stores exactly that `null` in the
cache (a `some` entry, distinct from the not-yet-cached `none`), and a
subsequent call — under any legacy environment — returns the same
explicit `null` with no recomputation (state unchanged). -/
theorem relationshipsDefinitionFor_noRelationships
    (env env2 : Env) (st : StoreState) (t : String) (mc : ModelForResult)
    (s1 : StoreState)
    (hc : env.customModelClass = false)
    (hc2 : env2.customModelClass = false)
    (hmiss : aget st.relationshipsDefCache t = none)
    (hm : modelFor env st t = (.ok mc, s1))
    (hnorel : classRelationshipsObjectOf env mc = none) :
    relationshipsDefinitionFor env st t =
      (.ok JsRelVal.nullRel,
        { s1 with relationshipsDefCache := aset s1.relationshipsDefCache t JsRelVal.nullRel })
    ∧ aget (aset s1.relationshipsDefCache t JsRelVal.nullRel) t
        = some JsRelVal.nullRel
    ∧ relationshipsDefinitionFor env2
        { s1 with relationshipsDefCache := aset s1.relationshipsDefCache t JsRelVal.nullRel } t
      = (.ok JsRelVal.nullRel,
          { s1 with relationshipsDefCache := aset s1.relationshipsDefCache t JsRelVal.nullRel }) := by
  have h1 := relationshipsDefinitionFor_miss_eval hc hmiss hm
  simp only [hnorel] at h1
  exact ⟨h1, aget_aset_self ..,
    relationshipsDefinitionFor_cacheHit hc2 (aget_aset_self ..)⟩

/-- Witness for C6: the fixture `person` class declares no
`relationshipsObject`; the second call runs under the mutated
environment. -/
theorem relationshipsDefinitionFor_noRelationships_witness :
    relationshipsDefinitionFor wEnv wSt "person" =
      (.ok JsRelVal.nullRel,
        { wSt1 with relationshipsDefCache := aset wSt1.relationshipsDefCache "person" JsRelVal.nullRel })
    ∧ aget (aset wSt1.relationshipsDefCache "person" JsRelVal.nullRel) "person"
        = some JsRelVal.nullRel
    ∧ relationshipsDefinitionFor wEnvMut
        { wSt1 with relationshipsDefCache := aset wSt1.relationshipsDefCache "person" JsRelVal.nullRel } "person"
      = (.ok JsRelVal.nullRel,
          { wSt1 with relationshipsDefCache := aset wSt1.relationshipsDefCache "person" JsRelVal.nullRel }) :=
  relationshipsDefinitionFor_noRelationships wEnv wEnvMut wSt "person"
    (.klass { ref := 100, name := "person", isModel := true }) wSt1
    (by decide) (by decide) (by decide) (by decide) (by decide)

/-- C7: `_relationshipMetaFor` in pluggable mode indexes the full
provider-backed per-type relationship map at the key; in legacy mode it
is answered from live class introspection (`relationshipsByName`) and is
oblivious to the contents of `_relationshipsDefCache` (any cache
contents `L` pass through unread and unchanged). -/
theorem relationshipMetaFor_mode_asymmetry
    (envP : Env) (stP : StoreState) (svc : SchemaService) (stP1 : StoreState)
    (envL : Env) (stL : StoreState) (mc : ModelForResult) (sL : StoreState)
    (t key : String) (idP idL : Option String)
    (hP : envP.customModelClass = true)
    (hsvc : getSchemaDefinitionService envP stP = .ok (svc, stP1))
    (hL : envL.customModelClass = false)
    (hm : modelFor envL stL t = (.ok mc, sL)) :
    relationshipMetaFor envP stP t idP key
      = (.ok (aget (envP.providerRels t).2 key), stP1)
    ∧ (∀ L, relationshipMetaFor envL
        { stL with relationshipsDefCache := L } t idL key
        = (.ok (aget (classRelationshipsByNameOf envL mc) key),
            { sL with relationshipsDefCache := L })) := by
  constructor
  · unfold relationshipMetaFor relationshipsDefinitionFor
    simp [hP, hsvc, serviceRelationshipsDefinitionFor]
  · have hbase : relationshipMetaFor envL stL t idL key
        = (.ok (aget (classRelationshipsByNameOf envL mc) key), sL) := by
      unfold relationshipMetaFor
      simp [hL, hm]
    intro L
    rw [relationshipMetaFor_legacy_relCache envL stL t idL key L hL, hbase]

/-- Witness for C7: pluggable lookup of `bestFriend` on `person`
delegates to the provider map; legacy lookup reads `relationshipsByName`
with a pre-seeded relationship cache passing through untouched. -/
theorem relationshipMetaFor_mode_asymmetry_witness :
    relationshipMetaFor wEnvP wSt "person" none "bestFriend"
      = (.ok (aget (wEnvP.providerRels "person").2 "bestFriend"), wStSvc)
    ∧ relationshipMetaFor wEnv
        { wSt with relationshipsDefCache := [("person", JsRelVal.nullRel)] }
        "person" (some "1") "bestFriend"
      = (.ok (aget (classRelationshipsByNameOf wEnv
            (.klass { ref := 100, name := "person", isModel := true }))
            "bestFriend"),
          { wSt1 with relationshipsDefCache := [("person", JsRelVal.nullRel)] }) := by
  have h := relationshipMetaFor_mode_asymmetry wEnvP wSt { ref := 0 } wStSvc
    wEnv wSt (.klass { ref := 100, name := "person", isModel := true }) wSt1
    "person" "bestFriend" none (some "1")
    (by decide) (by decide) (by decide) (by decide)
  exact ⟨h.1, h.2 [("person", JsRelVal.nullRel)]⟩

/-- C8: `modelFor` returns the resolved class directly when it
`isModel`; otherwise it returns a freshly allocated shim, and two
successive calls for the same shim-requiring type return
non-identical shims (distinct identities). -/
theorem modelFor_direct_class_or_fresh_shim
    (env1 : Env) (st1 : StoreState) (t1 : String) (f1 : FactoryVal)
    (s1 : StoreState)
    (env2 : Env) (st2 : StoreState) (t2 : String) (f2 : FactoryVal)
    (s2 : StoreState)
    (h1 : modelFactoryFor env1 st1 t1 = (.ok f1, s1))
    (hM1 : (klassOfFactory f1).isModel = true)
    (h2 : modelFactoryFor env2 st2 t2 = (.ok f2, s2))
    (hM2 : (klassOfFactory f2).isModel = false) :
    modelFor env1 st1 t1 = (.ok (.klass (klassOfFactory f1)), s1)
    ∧ modelFor env2 st2 t2
        = (.ok (.shim s2.nextRef t2), { s2 with nextRef := s2.nextRef + 1 })
    ∧ modelFor env2 { s2 with nextRef := s2.nextRef + 1 } t2
        = (.ok (.shim (s2.nextRef + 1) t2), { s2 with nextRef := s2.nextRef + 2 })
    ∧ (ModelForResult.shim s2.nextRef t2 ≠ .shim (s2.nextRef + 1) t2) := by
  obtain ⟨hg2, hne2, _⟩ := modelFactoryFor_ok_inv h2
  have frame2 := modelFactoryFor_ok_frame h2
  refine ⟨?_, ?_, ?_, ?_⟩
  · rw [modelFor_eval h1]
    simp [hM1]
  · rw [modelFor_eval h2]
    simp [hM2]
  · have h2b : modelFactoryFor env2 { s2 with nextRef := s2.nextRef + 1 } t2
        = (.ok f2, { s2 with nextRef := s2.nextRef + 1 }) := by
      apply modelFactoryFor_cacheHit
      · show (s2.shouldAssertMethodCallsOnDestroyedStore && s2.isDestroyed) = false
        rw [frame2.2.2.1, frame2.2.1]
        exact hg2
      · exact hne2
      · show aget s2.modelFactoryCache (env2.normalize t2) = some f2
        exact modelFactoryFor_ok_cached h2
    rw [modelFor_eval h2b]
    simp [hM2]
  · intro hcontra
    rw [ModelForResult.shim.injEq] at hcontra
    obtain ⟨h', _⟩ := hcontra
    exact Nat.succ_ne_self _ h'.symm

/-- Witness for C8: `person` is a model class and is returned directly;
`shimful` is not and two successive `modelFor` calls return shims with
identities 1 and 2. -/
theorem modelFor_direct_class_or_fresh_shim_witness :
    modelFor wEnv wSt "person"
      = (.ok (.klass (klassOfFactory wFactory)), wSt1)
    ∧ modelFor wEnv wSt "shimful"
        = (.ok (.shim wStShim.nextRef "shimful"),
            { wStShim with nextRef := wStShim.nextRef + 1 })
    ∧ modelFor wEnv { wStShim with nextRef := wStShim.nextRef + 1 } "shimful"
        = (.ok (.shim (wStShim.nextRef + 1) "shimful"),
            { wStShim with nextRef := wStShim.nextRef + 2 })
    ∧ (ModelForResult.shim wStShim.nextRef "shimful"
        ≠ .shim (wStShim.nextRef + 1) "shimful") :=
  modelFor_direct_class_or_fresh_shim wEnv wSt "person" wFactory wSt1
    wEnv wSt "shimful" wShimFactory wStShim
    (by decide) (by decide) (by decide) (by decide)

/-- C9: in legacy mode the definition caches are keyed by the raw,
un-normalized name: for two distinct raw names normalizing to the same
canonical type, `_attributesDefinitionFor` computes and caches a
separate entry under each raw name, the two returned attribute mappings
are not reference-identical, and `_relationshipsDefinitionFor` likewise
ends up with a cached entry under each raw name. -/
theorem defCaches_keyed_by_raw_name
    (env : Env) (st : StoreState) (t1 t2 : String)
    (a1 : AttrDefs) (s1 : StoreState) (a2 : AttrDefs) (s2 : StoreState)
    (r1 : JsRelVal) (u1 : StoreState) (r2 : JsRelVal) (u2 : StoreState)
    (hc : env.customModelClass = false)
    (hne : t1 ≠ t2)
    (hnorm : env.normalize t1 = env.normalize t2)
    (hm1 : aget st.attributesDefCache t1 = none)
    (hm2 : aget st.attributesDefCache t2 = none)
    (h1 : attributesDefinitionFor env st t1 = (.ok a1, s1))
    (h2 : attributesDefinitionFor env s1 t2 = (.ok a2, s2))
    (hr1 : relationshipsDefinitionFor env s2 t1 = (.ok r1, u1))
    (hr2 : relationshipsDefinitionFor env u1 t2 = (.ok r2, u2)) :
    a1.ref ≠ a2.ref
    ∧ aget s2.attributesDefCache t1 = some a1
    ∧ aget s2.attributesDefCache t2 = some a2
    ∧ aget u2.relationshipsDefCache t1 = some r1
    ∧ aget u2.relationshipsDefCache t2 = some r2 := by
  have inv1 := attributesDefinitionFor_ok_legacy_inv hc h1
  have miss1 := attributesDefinitionFor_miss_inv hc hm1 h1
  have hm2b : aget s1.attributesDefCache t2 = none := by
    rw [inv1.2.1 t2 (Ne.symm hne)]
    exact hm2
  have miss2 := attributesDefinitionFor_miss_inv hc hm2b h2
  have inv2 := attributesDefinitionFor_ok_legacy_inv hc h2
  have relinv1 := relationshipsDefinitionFor_ok_legacy_inv hc hr1
  have relinv2 := relationshipsDefinitionFor_ok_legacy_inv hc hr2
  refine ⟨?_, ?_, inv2.1, ?_, relinv2.1⟩
  · have ha1 : s1.nextRef = a1.ref + 1 := miss1.2
    have ha2 : s1.nextRef ≤ a2.ref := miss2.1
    refine Nat.ne_of_lt (Nat.lt_of_lt_of_le ?_ ha2)
    rw [ha1]
    exact Nat.lt_succ_self _
  · rw [inv2.2.1 t1 hne]
    exact inv1.1
  · rw [relinv2.2.1 t1 hne]
    exact relinv1.1

/-- The second attribute-definitions object, computed for the raw name
`"person"` after `"Person"` was already cached. -/
def wAttrs2 : AttrDefs :=
  { ref := 2, entries := wAttrs.entries }

/-- The fixture store after `_attributesDefinitionFor("Person")`. -/
def wStP1 : StoreState :=
  { wSt with
    nextRef := 2,
    modelFactoryCache := [("person", wFactory)],
    attributesDefCache := [("Person", wAttrs)] }

/-- Then after `_attributesDefinitionFor("person")`. -/
def wStP2 : StoreState :=
  { wStP1 with
    nextRef := 3,
    attributesDefCache := [("Person", wAttrs), ("person", wAttrs2)] }

/-- Then after `_relationshipsDefinitionFor("Person")`. -/
def wStP3 : StoreState :=
  { wStP2 with relationshipsDefCache := [("Person", JsRelVal.nullRel)] }

/-- Then after `_relationshipsDefinitionFor("person")`. -/
def wStP4 : StoreState :=
  { wStP3 with relationshipsDefCache :=
      [("Person", JsRelVal.nullRel), ("person", JsRelVal.nullRel)] }

/-- Witness for C9: the raw names `"Person"` and `"person"` both
normalize to `person`; the four calls are run in sequence on the fixture
store. -/
theorem defCaches_keyed_by_raw_name_witness :
    wAttrs.ref ≠ wAttrs2.ref
    ∧ aget wStP2.attributesDefCache "Person" = some wAttrs
    ∧ aget wStP2.attributesDefCache "person" = some wAttrs2
    ∧ aget wStP4.relationshipsDefCache "Person" = some JsRelVal.nullRel
    ∧ aget wStP4.relationshipsDefCache "person" = some JsRelVal.nullRel :=
  defCaches_keyed_by_raw_name wEnv wSt "Person" "person"
    wAttrs wStP1 wAttrs2 wStP2 JsRelVal.nullRel wStP3 JsRelVal.nullRel wStP4
    (by decide) (by decide) (by decide) (by decide) (by decide)
    (by decide) (by decide) (by decide) (by decide)

/-- C10: `_relationshipMetaFor` is independent of its `id` argument, in
both the legacy and the pluggable branch (the argument is accepted and
never read). -/
theorem relationshipMetaFor_ignores_id
    (env : Env) (st : StoreState) (t : String) (id1 id2 : Option String)
    (key : String) :
    relationshipMetaFor env st t id1 key
      = relationshipMetaFor env st t id2 key := rfl

end DSModelStore
